import Mathlib

/-!
Verification of the adaptive quality-targeting subsystem of grav1an
(`src/main.rs`, `src/ssimulacra2.rs`).  Rust floating-point values (`f32`,
`f64`) are modelled by exact rationals; the integer casts of the source carry
explicit truncation and saturation mirroring Rust `as` semantics, and `u32`
narrowing is an explicit `% 2 ^ 32`.  Stateful code (the worker pool's shared
decode cursor) is modelled by explicit state passing.
-/

namespace Grav1an

/-- Rust `f32::clamp(min, max)`: `if self < min { min } else if self > max
{ max } else { self }` (the NaN and `min > max` panic cases do not arise in
the rational model; claims about clamping assume an ordered range). -/
def rustClamp (x lo hi : ℚ) : ℚ :=
  if x < lo then lo else if x > hi then hi else x

/-- Rust float-to-integer `as` conversion before saturation: truncation
toward zero. -/
def ratTrunc (q : ℚ) : ℤ :=
  if 0 ≤ q then ⌊q⌋ else ⌈q⌉

/-- Rust `f32 as i8` (src/main.rs:990): truncate toward zero, then saturate
into `[-128, 127]`. -/
def i8Cast (q : ℚ) : ℤ :=
  max (-128) (min 127 (ratTrunc q))

/-- Rust `f32::round` / `f64::round`: nearest integer, ties away from zero. -/
def rustRound (q : ℚ) : ℤ :=
  if 0 ≤ q then ⌊q + 1 / 2⌋ else ⌈q - 1 / 2⌉

/-- Rust `f32 as usize` (src/main.rs:955) on a 64-bit target: truncate toward
zero, saturating into `[0, 2 ^ 64 - 1]`. -/
def f32ToUsize (q : ℚ) : ℕ :=
  if q < 0 then 0 else min (ratTrunc q).toNat (2 ^ 64 - 1)

/-- The fields of `Args` (src/args.rs) consumed by the quantizer search.
The `--quantizer_range` JSON string is modelled as the pair it parses to
(`serde_json::from_str::<[f32; 2]>`, an external parser). -/
structure Args where
  quantizer : ℚ
  quantizer_calc : ℚ
  quantizer_range : Option (ℚ × ℚ)
  encoder : String

/-- `quantizer_range` (src/main.rs:880-891): encoder-specific default
`[40, 160]` for rav1e and `[25, 55]` otherwise, overridden by a configured
range when present. -/
def quantizer_range (range : Option (ℚ × ℚ)) (encoder : String) : ℚ × ℚ :=
  match range with
  | none => if encoder = "rav1e" then (40, 160) else (25, 55)
  | some r => r

/-- `calculate_quantizer` (src/main.rs:893-898): `base + step * modifier`
clamped into the active quantizer range. -/
def calculate_quantizer (args : Args) (modifier : ℤ) : ℚ :=
  let part1 : ℚ := args.quantizer + args.quantizer_calc * (modifier : ℚ)
  let range := quantizer_range args.quantizer_range args.encoder
  rustClamp part1 range.1 range.2

theorem rustClamp_le_right {x lo hi : ℚ} (h : lo ≤ hi) : rustClamp x lo hi ≤ hi := by
  unfold rustClamp
  split_ifs <;> linarith

theorem rustClamp_left_le {x lo hi : ℚ} (h : lo ≤ hi) : lo ≤ rustClamp x lo hi := by
  unfold rustClamp
  split_ifs <;> linarith

/-- C1: for every configured quantizer range `[lo, hi]` with `lo ≤ hi` and
every modifier `k ∈ {-2, -1, 1, 2}`, the trial quantizer computed by
`calculate_quantizer` equals `base_quantizer + step * k` clamped into
`[lo, hi]`, hence always lies within `[lo, hi]`. -/
theorem c1_trial_quantizer_in_range (args : Args) (k : ℤ)
    (_hk : k = -2 ∨ k = -1 ∨ k = 1 ∨ k = 2)
    (h : (quantizer_range args.quantizer_range args.encoder).1 ≤
         (quantizer_range args.quantizer_range args.encoder).2) :
    calculate_quantizer args k =
      rustClamp (args.quantizer + args.quantizer_calc * (k : ℚ))
        (quantizer_range args.quantizer_range args.encoder).1
        (quantizer_range args.quantizer_range args.encoder).2 ∧
    (quantizer_range args.quantizer_range args.encoder).1 ≤
      calculate_quantizer args k ∧
    calculate_quantizer args k ≤
      (quantizer_range args.quantizer_range args.encoder).2 := by
  refine ⟨rfl, ?_, ?_⟩
  · exact rustClamp_left_le h
  · exact rustClamp_le_right h

/-- Witness for C1 at the svt-av1 defaults: base 40, step 5, modifier 2. -/
theorem c1_witness :
    ((2 : ℤ) = -2 ∨ (2 : ℤ) = -1 ∨ (2 : ℤ) = 1 ∨ (2 : ℤ) = 2) ∧
    ((quantizer_range none "svt-av1").1 ≤ (quantizer_range none "svt-av1").2) ∧
    ((quantizer_range none "svt-av1").1 ≤
       calculate_quantizer ⟨40, 5, none, "svt-av1"⟩ 2 ∧
     calculate_quantizer ⟨40, 5, none, "svt-av1"⟩ 2 ≤
       (quantizer_range none "svt-av1").2) :=
  ⟨by norm_num, by decide,
    (c1_trial_quantizer_in_range ⟨40, 5, none, "svt-av1"⟩ 2 (by norm_num)
      (by decide)).2⟩

/-- `QuantizerScores` (src/main.rs:44-51): per-(scene, trial) statistics. -/
structure QuantizerScores where
  mean : ℚ
  median : ℚ
  std_dev : ℚ
  percentile_5th : ℚ
  percentile_95th : ℚ

/-- The per-family quality-compensation bias added to a stored mean before
curve fitting (src/main.rs:975-979): `+2` for rav1e, `+1` otherwise. -/
def qualityComp (encoder : String) : ℚ :=
  if encoder = "rav1e" then 2 else 1

/-- The x-coordinates handed to `polyfit` (src/main.rs:973-980): the stored
means, each shifted by the encoder family's compensation bias. -/
def fit_xs (encoder : String) (scores : List (ℕ × QuantizerScores)) : List ℚ :=
  scores.map (fun p => p.2.mean + qualityComp encoder)

/-- The y-coordinates handed to `polyfit` (src/main.rs:974): the stored
integer quantizer keys, cast to floating point. -/
def fit_ys (scores : List (ℕ × QuantizerScores)) : List ℚ :=
  scores.map (fun p => (p.1 : ℚ))

/-- `polynomial::Polynomial::new(coeffs).eval(x)` (external `polynomial`
crate, used at src/main.rs:984-985): `Σ coeffs[i] * x ^ i`, lowest degree
first, written in Horner form. -/
def polyEval (coeffs : List ℚ) (x : ℚ) : ℚ :=
  coeffs.foldr (fun c acc => c + x * acc) 0

/-- The encoder-family rounding of a solved quantizer (src/main.rs:989-993):
rav1e takes `(q as i8) as f32`; the other family takes `(q * 4).round() / 4`. -/
def encoderRound (encoder : String) (q : ℚ) : ℚ :=
  if encoder = "rav1e" then (i8Cast q : ℚ) else (rustRound (q * 4) : ℚ) / 4

/-- The tail of the per-scene solve (src/main.rs:981-993) given the fitted
coefficients: if some coefficient is nonzero, evaluate the polynomial at the
target quality and clamp into the active range, otherwise take the range's
upper bound; then apply the encoder-family rounding. -/
def solve_from_coeffs (encoder : String) (target_quality : ℚ)
    (range : Option (ℚ × ℚ)) (mean_corr : List ℚ) : ℚ :=
  let q_range := quantizer_range range encoder
  let q := if ¬ (∀ f ∈ mean_corr, f = 0) then
      rustClamp (polyEval mean_corr target_quality) q_range.1 q_range.2
    else q_range.2
  encoderRound encoder q

/-- The per-scene body of `zone_overrides` (src/main.rs:972-995): push the
quantizer key and the compensated mean of every recorded trial, fit a
degree-3 polynomial mapping compensated mean score to quantizer (`polyfit`,
an external crate, modelled as the oracle `fit`), solve and round.  The
result is the scene's `final_quantizer`. -/
def solve_scene (encoder : String) (target_quality : ℚ)
    (range : Option (ℚ × ℚ)) (fit : List ℚ → List ℚ → ℕ → List ℚ)
    (scores : List (ℕ × QuantizerScores)) : ℚ :=
  let ls : List ℚ × List ℚ := scores.foldl
    (fun acc p => (acc.1 ++ [(p.1 : ℚ)],
                   acc.2 ++ [p.2.mean + (if encoder = "rav1e" then 2 else 1)]))
    ([], [])
  let mean_corr := fit ls.2 ls.1 3
  solve_from_coeffs encoder target_quality range mean_corr

theorem foldl_push_pairs (encoder : String) :
    ∀ (l : List (ℕ × QuantizerScores)) (a b : List ℚ),
      l.foldl (fun acc p => (acc.1 ++ [(p.1 : ℚ)],
          acc.2 ++ [p.2.mean + (if encoder = "rav1e" then (2 : ℚ) else 1)]))
        (a, b) = (a ++ fit_ys l, b ++ fit_xs encoder l) := by
  intro l
  induction l with
  | nil => intro a b; simp [fit_ys, fit_xs]
  | cons p rest ih =>
    intro a b
    simp only [List.foldl_cons, ih, fit_ys, fit_xs, List.map_cons, qualityComp]
    simp

theorem solve_scene_eq (encoder : String) (tq : ℚ) (range : Option (ℚ × ℚ))
    (fit : List ℚ → List ℚ → ℕ → List ℚ) (scores : List (ℕ × QuantizerScores)) :
    solve_scene encoder tq range fit scores =
      solve_from_coeffs encoder tq range
        (fit (fit_xs encoder scores) (fit_ys scores) 3) := by
  unfold solve_scene
  rw [foldl_push_pairs encoder scores [] []]
  simp

/-- C5: the score used as curve-fit input for every recorded trial is the
stored mean plus a constant bias (+2 for rav1e, +1 otherwise, so larger for
the rav1e family), and the per-scene fit is a degree-3 polynomial mapping
compensated mean score to quantizer through the trial pairs. -/
theorem c5_compensated_fit (encoder : String) (tq : ℚ) (range : Option (ℚ × ℚ))
    (fit : List ℚ → List ℚ → ℕ → List ℚ) (scores : List (ℕ × QuantizerScores)) :
    solve_scene encoder tq range fit scores =
      solve_from_coeffs encoder tq range
        (fit (scores.map (fun p => p.2.mean + qualityComp encoder))
             (scores.map (fun p => (p.1 : ℚ))) 3) ∧
    qualityComp "rav1e" = 2 ∧
    (∀ enc : String, enc ≠ "rav1e" → qualityComp enc = 1) ∧
    (∀ enc : String, enc ≠ "rav1e" → qualityComp enc < qualityComp "rav1e") := by
  refine ⟨solve_scene_eq encoder tq range fit scores, by norm_num [qualityComp], ?_, ?_⟩
  · intro enc h
    simp [qualityComp, h]
  · intro enc h
    simp only [qualityComp, if_neg h, if_pos rfl]
    norm_num

/-- Witness for C5 at the svt-av1 encoder with an empty trial map. -/
theorem c5_witness :
    ("svt-av1" : String) ≠ "rav1e" ∧
    qualityComp "svt-av1" = 1 ∧
    qualityComp "svt-av1" < qualityComp "rav1e" ∧
    solve_scene "svt-av1" 80 none (fun _ _ _ => []) [] =
      solve_from_coeffs "svt-av1" 80 none ((fun _ _ _ => ([] : List ℚ))
        (([] : List (ℕ × QuantizerScores)).map
          (fun p => p.2.mean + qualityComp "svt-av1"))
        (([] : List (ℕ × QuantizerScores)).map (fun p => (p.1 : ℚ))) 3) := by
  have h := c5_compensated_fit "svt-av1" 80 none (fun _ _ _ => []) []
  exact ⟨by decide, h.2.2.1 "svt-av1" (by decide), h.2.2.2 "svt-av1" (by decide), h.1⟩

/-- C2: whenever the fitted polynomial is identically zero the solver takes
the upper bound of the active quantizer range (subject only to the
encoder-family rounding) and returns a value rather than an error; whenever
some coefficient is nonzero it evaluates the polynomial at the target
quality and clamps into the range. -/
theorem c2_degenerate_fit_fallback (encoder : String) (tq : ℚ)
    (range : Option (ℚ × ℚ)) (fit : List ℚ → List ℚ → ℕ → List ℚ)
    (scores : List (ℕ × QuantizerScores)) :
    ((∀ f ∈ fit (fit_xs encoder scores) (fit_ys scores) 3, f = 0) →
      solve_scene encoder tq range fit scores =
        encoderRound encoder (quantizer_range range encoder).2) ∧
    ((¬ ∀ f ∈ fit (fit_xs encoder scores) (fit_ys scores) 3, f = 0) →
      solve_scene encoder tq range fit scores =
        encoderRound encoder
          (rustClamp (polyEval (fit (fit_xs encoder scores) (fit_ys scores) 3) tq)
            (quantizer_range range encoder).1 (quantizer_range range encoder).2)) := by
  rw [solve_scene_eq encoder tq range fit scores]
  constructor
  · intro hzero
    simp only [solve_from_coeffs]
    rw [if_neg (not_not_intro hzero)]
  · intro hnz
    simp only [solve_from_coeffs]
    rw [if_pos hnz]

/-- Witness for C2: the all-zero fit at svt-av1 defaults falls back to the
upper bound, and a fit with a nonzero coefficient takes the clamped
polynomial value. -/
theorem c2_witness :
    (∀ f ∈ (fun (_ _ : List ℚ) (_ : ℕ) => [(0 : ℚ), 0, 0, 0])
        (fit_xs "svt-av1" []) (fit_ys []) 3, f = 0) ∧
    solve_scene "svt-av1" 80 none (fun _ _ _ => [(0 : ℚ), 0, 0, 0]) [] =
      encoderRound "svt-av1" (quantizer_range none "svt-av1").2 ∧
    (¬ ∀ f ∈ (fun (_ _ : List ℚ) (_ : ℕ) => [(40 : ℚ)])
        (fit_xs "svt-av1" []) (fit_ys []) 3, f = 0) ∧
    solve_scene "svt-av1" 80 none (fun _ _ _ => [(40 : ℚ)]) [] =
      encoderRound "svt-av1" (rustClamp
        (polyEval ((fun (_ _ : List ℚ) (_ : ℕ) => [(40 : ℚ)])
           (fit_xs "svt-av1" []) (fit_ys []) 3) 80)
        (quantizer_range none "svt-av1").1 (quantizer_range none "svt-av1").2) := by
  refine ⟨by norm_num, ?_, by norm_num, ?_⟩
  · exact (c2_degenerate_fit_fallback "svt-av1" 80 none
      (fun _ _ _ => [(0 : ℚ), 0, 0, 0]) []).1 (by norm_num)
  · exact (c2_degenerate_fit_fallback "svt-av1" 80 none
      (fun _ _ _ => [(40 : ℚ)]) []).2 (by norm_num)

/-- C4, counterexample: at the degenerate-fit fallback of the rav1e default
range the solved quantizer is `q = 160`, yet `(q as i8) as f32` saturates to
`127`; so `final_quantizer` is neither `q` rounded to the nearest integer
nor `q` truncated, and the claimed identity fails inside `[40, 160]`. -/
theorem c4_counterexample :
    encoderRound "rav1e" 160 = 127 ∧ (127 : ℚ) ≠ 160 ∧
    ¬ (∀ q : ℚ, 40 ≤ q → q ≤ 160 → encoderRound "rav1e" q = (ratTrunc q : ℚ)) := by
  have h160 : encoderRound "rav1e" 160 = 127 := by
    norm_num [encoderRound, i8Cast, ratTrunc]
  refine ⟨h160, by norm_num, fun h => ?_⟩
  have := h 160 (by norm_num) le_rfl
  rw [h160] at this
  norm_num [ratTrunc] at this

/-- C4, amended: for the rav1e family `final_quantizer` is the solved
quantizer truncated toward zero and saturated into i8's range `[-128, 127]`
— equal to plain truncation only on `[40, 127]`, and pinned to `127` on
`(127, 160]` — while for the svt-av1 family it is `round(q * 4) / 4`, the
nearest quarter step. -/
theorem c4_amended :
    (∀ q : ℚ, 40 ≤ q → q ≤ 127 → encoderRound "rav1e" q = (ratTrunc q : ℚ)) ∧
    (∀ q : ℚ, 127 < q → q ≤ 160 → encoderRound "rav1e" q = 127) ∧
    (∀ q : ℚ, encoderRound "svt-av1" q = (rustRound (q * 4) : ℚ) / 4) := by
  refine ⟨?_, ?_, ?_⟩
  · intro q h40 h127
    have h0 : (0 : ℚ) ≤ q := by linarith
    have htr : ratTrunc q = ⌊q⌋ := if_pos h0
    have hlow : (40 : ℤ) ≤ ⌊q⌋ := by
      have : ((40 : ℤ) : ℚ) ≤ q := by exact_mod_cast h40
      exact Int.le_floor.mpr this
    have hhigh : ⌊q⌋ ≤ 127 := by
      have : ⌊q⌋ ≤ ⌊(127 : ℚ)⌋ := Int.floor_le_floor h127
      simpa using this
    unfold encoderRound i8Cast
    rw [if_pos rfl, htr, min_eq_right hhigh, max_eq_right (by omega)]
  · intro q h127 _h160
    have h0 : (0 : ℚ) ≤ q := by linarith
    have htr : ratTrunc q = ⌊q⌋ := if_pos h0
    have hlow : (127 : ℤ) ≤ ⌊q⌋ := by
      have : ((127 : ℤ) : ℚ) ≤ q := by exact_mod_cast le_of_lt h127
      exact Int.le_floor.mpr this
    unfold encoderRound i8Cast
    rw [if_pos rfl, htr, min_eq_left hlow, max_eq_right (by omega)]
    norm_num
  · intro q
    simp [encoderRound]

/-- Witness for C4 (amended) at q = 45.9 (truncates to 45), q = 130
(saturates to 127) and q = 45.9 on the quarter-step family. -/
theorem c4_witness :
    ((40 : ℚ) ≤ 459 / 10 ∧ (459 / 10 : ℚ) ≤ 127 ∧
      encoderRound "rav1e" (459 / 10) = (ratTrunc (459 / 10) : ℚ)) ∧
    ((127 : ℚ) < 130 ∧ (130 : ℚ) ≤ 160 ∧ encoderRound "rav1e" 130 = 127) ∧
    encoderRound "svt-av1" (459 / 10) = (rustRound ((459 / 10) * 4) : ℚ) / 4 :=
  ⟨⟨by norm_num, by norm_num,
      c4_amended.1 (459 / 10) (by norm_num) (by norm_num)⟩,
   ⟨by norm_num, by norm_num, c4_amended.2.1 130 (by norm_num) (by norm_num)⟩,
   c4_amended.2.2 (459 / 10)⟩

/-- `HashMap::insert` (src/main.rs:955) on an association list whose keys
are unique (the `HashMap` invariant): replace the value stored at the key if
present, otherwise add the binding. -/
def insertKV : List (ℕ × QuantizerScores) → ℕ → QuantizerScores →
    List (ℕ × QuantizerScores)
  | [], k, v => [(k, v)]
  | p :: rest, k, v =>
    if p.1 = k then (k, v) :: rest else p :: insertKV rest k v

/-- `HashMap::get`-style lookup on the association list. -/
def lookupKV (m : List (ℕ × QuantizerScores)) (k : ℕ) : Option QuantizerScores :=
  (m.find? (fun p => p.1 == k)).map (fun p => p.2)

/-- src/main.rs:953-956: a trial's `QuantizerScores` are stored in
`scene.quantizer_scores` under the key `quantizer as usize`, the truncated
f32 trial quantizer. -/
def record_trial (m : List (ℕ × QuantizerScores)) (quantizer : ℚ)
    (stats : QuantizerScores) : List (ℕ × QuantizerScores) :=
  insertKV m (f32ToUsize quantizer) stats

theorem lookupKV_insertKV (m : List (ℕ × QuantizerScores)) (k : ℕ)
    (v : QuantizerScores) : lookupKV (insertKV m k v) k = some v := by
  induction m with
  | nil => simp [insertKV, lookupKV, List.find?]
  | cons p rest ih =>
    by_cases h : p.1 = k
    · simp [insertKV, h, lookupKV, List.find?]
    · simp only [insertKV, if_neg h, lookupKV]
      rw [List.find?_cons_of_neg _ (by simpa using h)]
      simpa [lookupKV] using ih

theorem insertKV_insertKV (m : List (ℕ × QuantizerScores)) (k : ℕ)
    (v1 v2 : QuantizerScores) :
    insertKV (insertKV m k v1) k v2 = insertKV m k v2 := by
  induction m with
  | nil => simp [insertKV]
  | cons p rest ih =>
    by_cases h : p.1 = k
    · simp [insertKV, h]
    · simp [insertKV, if_neg h, ih]

theorem f32ToUsize_eval {q : ℚ} {t : ℤ} (h0 : ¬ q < 0) (ht : ratTrunc q = t)
    (hlt : t.toNat < 2 ^ 64 - 1) : f32ToUsize q = t.toNat := by
  unfold f32ToUsize
  rw [if_neg h0, ht, min_eq_left (le_of_lt hlt)]

/-- C10: trial statistics are stored under the truncated (`as usize`) trial
quantizer; the curve fit's quantizer coordinates are those truncated keys,
not the fractional trial quantizers (45.5 contributes the coordinate 45);
and a second trial whose quantizer has the same integer part overwrites the
earlier entry. -/
theorem c10_truncated_keys :
    (∀ (m : List (ℕ × QuantizerScores)) (q : ℚ) (v : QuantizerScores),
      lookupKV (record_trial m q v) (f32ToUsize q) = some v) ∧
    (∀ (m : List (ℕ × QuantizerScores)) (q1 q2 : ℚ) (v1 v2 : QuantizerScores),
      f32ToUsize q1 = f32ToUsize q2 →
      record_trial (record_trial m q1 v1) q2 v2 = record_trial m q2 v2) ∧
    (∀ (q : ℚ) (v : QuantizerScores),
      fit_ys (record_trial [] q v) = [(f32ToUsize q : ℚ)]) ∧
    f32ToUsize (91 / 2) = 45 ∧ ((f32ToUsize (91 / 2) : ℚ) ≠ 91 / 2) := by
  refine ⟨?_, ?_, ?_, ?_, ?_⟩
  · intro m q v
    exact lookupKV_insertKV m (f32ToUsize q) v
  · intro m q1 q2 v1 v2 h
    unfold record_trial
    rw [h, insertKV_insertKV]
  · intro q v
    simp [fit_ys, record_trial, insertKV]
  · rw [f32ToUsize_eval (q := 91 / 2) (t := 45) (by norm_num)
      (by norm_num [ratTrunc]) (by norm_num)]
    decide
  · rw [f32ToUsize_eval (q := 91 / 2) (t := 45) (by norm_num)
      (by norm_num [ratTrunc]) (by norm_num),
      show ((45 : ℤ).toNat = 45) from by decide]
    norm_num

/-- Witness for C10: recording a trial at quantizer 45.5 stores its
statistics under key 45, and a later trial at 45.9 overwrites it. -/
theorem c10_witness :
    lookupKV (record_trial [] (91 / 2) ⟨70, 70, 0, 70, 70⟩)
        (f32ToUsize (91 / 2)) = some ⟨70, 70, 0, 70, 70⟩ ∧
    f32ToUsize (91 / 2) = f32ToUsize (459 / 10) ∧
    record_trial (record_trial [] (91 / 2) ⟨70, 70, 0, 70, 70⟩) (459 / 10)
        ⟨71, 71, 0, 71, 71⟩ =
      record_trial [] (459 / 10) ⟨71, 71, 0, 71, 71⟩ :=
  ⟨c10_truncated_keys.1 [] (91 / 2) ⟨70, 70, 0, 70, 70⟩,
   by rw [f32ToUsize_eval (q := 91 / 2) (t := 45) (by norm_num)
        (by norm_num [ratTrunc]) (by norm_num),
      f32ToUsize_eval (q := 459 / 10) (t := 45) (by norm_num)
        (by norm_num [ratTrunc]) (by norm_num)],
   c10_truncated_keys.2.1 [] (91 / 2) (459 / 10) ⟨70, 70, 0, 70, 70⟩
     ⟨71, 71, 0, 71, 71⟩ (by
       rw [f32ToUsize_eval (q := 91 / 2) (t := 45) (by norm_num)
           (by norm_num [ratTrunc]) (by norm_num),
         f32ToUsize_eval (q := 459 / 10) (t := 45) (by norm_num)
           (by norm_num [ratTrunc]) (by norm_num)])⟩

/-- src/main.rs:942: the cached frame scores with non-positive score removed
(`filter(|e| e.1 > 0f64)`). -/
def filter_scores (results : List (ℕ × ℚ)) : List (ℕ × ℚ) :=
  results.filter (fun e => decide (0 < e.2))

/-- src/main.rs:944-945: the filtered scores a scene collects — those whose
frame index, narrowed by the `e.0 as u32` cast, lies in
`[start_frame, end_frame]`.  Exactly these values feed the scene's
`QualityStats` (mean, median, std_dev, 5th/95th percentile,
src/main.rs:951-953). -/
def scene_scores (start_frame end_frame : ℕ) (scores : List (ℕ × ℚ)) :
    List (ℕ × ℚ) :=
  scores.filter (fun e =>
    decide (start_frame ≤ e.1 % 2 ^ 32) && decide (e.1 % 2 ^ 32 ≤ end_frame))

/-- C6, counterexample: on a 64-bit target the `as u32` cast wraps, so the
score at canonical frame index `2 ^ 32` contributes to scene `[0, 99]` even
though `2 ^ 32` does not lie in `[0, 99]`. -/
theorem c6_counterexample :
    (4294967296, (1 : ℚ)) ∈ scene_scores 0 99 (filter_scores [(4294967296, 1)]) ∧
    ¬ (4294967296 ≤ 99) := by
  constructor
  · simp [scene_scores, filter_scores]
  · decide

/-- C6, amended: a persisted frame score contributes to a scene's statistics
iff its score is strictly positive and its canonical index *reduced mod
`2 ^ 32`* (the `as u32` cast) lies in the scene's inclusive range; for
indices below `2 ^ 32` this is the canonical index itself, and every score
`≤ 0` contributes nowhere. -/
theorem c6_scene_attribution (start_frame end_frame : ℕ)
    (results : List (ℕ × ℚ)) (idx : ℕ) (s : ℚ) :
    ((idx, s) ∈ scene_scores start_frame end_frame (filter_scores results) ↔
      (idx, s) ∈ results ∧ 0 < s ∧
        start_frame ≤ idx % 2 ^ 32 ∧ idx % 2 ^ 32 ≤ end_frame) ∧
    (idx < 2 ^ 32 →
      ((idx, s) ∈ scene_scores start_frame end_frame (filter_scores results) ↔
        (idx, s) ∈ results ∧ 0 < s ∧ start_frame ≤ idx ∧ idx ≤ end_frame)) := by
  have hmem : (idx, s) ∈ scene_scores start_frame end_frame (filter_scores results) ↔
      (idx, s) ∈ results ∧ 0 < s ∧
        start_frame ≤ idx % 2 ^ 32 ∧ idx % 2 ^ 32 ≤ end_frame := by
    simp only [scene_scores, filter_scores, List.filter_filter, List.mem_filter,
      Bool.and_eq_true, decide_eq_true_eq]
    tauto
  refine ⟨hmem, fun hlt => ?_⟩
  rw [hmem, Nat.mod_eq_of_lt hlt]

/-- Witness for C6 (amended), the spec's attribution instance: with scene
`[0, 99]` and raw scores at indices 5 (score -1), 15 and 120, index 15
contributes to the scene. -/
theorem c6_witness :
    (15 < 2 ^ 32) ∧
    ((15, (1 : ℚ)) ∈ scene_scores 0 99
        (filter_scores [(5, -1), (15, 1), (120, 1)]) ↔
      (15, (1 : ℚ)) ∈ [((5 : ℕ), (-1 : ℚ)), (15, 1), (120, 1)] ∧
        (0 : ℚ) < 1 ∧ 0 ≤ 15 ∧ 15 ≤ 99) :=
  ⟨by norm_num,
   (c6_scene_attribution 0 99 [(5, -1), (15, 1), (120, 1)] 15 1).2 (by norm_num)⟩

/-- src/ssimulacra2.rs:506-513: the Result Aggregator's running average; on
the j-th collected score (j = `results.len()` after insertion) it performs
`avg += (score - avg) / min(j, 10)`, starting from `avg = 0`. -/
def runAvgAux : ℚ → ℕ → List ℚ → ℚ
  | avg, _, [] => avg
  | avg, n, s :: rest =>
      runAvgAux (avg + (s - avg) / ((min (n + 1) 10 : ℕ) : ℚ)) (n + 1) rest

/-- The running average after feeding a whole score sequence in order. -/
def runAvg (scores : List ℚ) : ℚ := runAvgAux 0 0 scores

theorem runAvgAux_mean :
    ∀ (rest : List ℚ) (n : ℕ) (avg : ℚ), 1 ≤ n → n + rest.length ≤ 10 →
      runAvgAux avg n rest = (avg * n + rest.sum) / (n + rest.length) := by
  intro rest
  induction rest with
  | nil =>
    intro n avg h1 _
    have hn : (n : ℚ) ≠ 0 := Nat.cast_ne_zero.mpr (by omega)
    simp only [runAvgAux, List.sum_nil, List.length_nil, add_zero, Nat.cast_zero]
    field_simp
  | cons s rest ih =>
    intro n avg h1 hle
    have hmin : min (n + 1) 10 = n + 1 := by
      simp only [List.length_cons] at hle
      omega
    have hlen : (n + 1) + rest.length ≤ 10 := by
      simp only [List.length_cons] at hle
      omega
    have hn1 : ((n : ℚ) + 1) ≠ 0 := by positivity
    simp only [runAvgAux, hmin]
    rw [ih (n + 1) _ (by omega) hlen]
    simp only [List.sum_cons, List.length_cons]
    push_cast
    field_simp
    ring

/-- C7: starting from `avg = 0`, the bounded update
`avg += (score - avg) / min(count, 10)` reproduces the plain cumulative mean
for every score sequence of length ≤ 10, and differs from the cumulative
mean on some sequence of length > 10. -/
theorem c7_bounded_average :
    (∀ scores : List ℚ, scores.length ≤ 10 →
      runAvg scores = scores.sum / (scores.length : ℚ)) ∧
    (∃ scores : List ℚ, 10 < scores.length ∧
      runAvg scores ≠ scores.sum / (scores.length : ℚ)) := by
  constructor
  · intro scores hlen
    cases scores with
    | nil => simp [runAvg, runAvgAux]
    | cons s rest =>
      have h0 : runAvg (s :: rest) = runAvgAux s 1 rest := by
        simp [runAvg, runAvgAux]
      have hlen1 : 1 + rest.length ≤ 10 := by
        simpa [List.length_cons, Nat.add_comm] using hlen
      rw [h0, runAvgAux_mean rest 1 s le_rfl hlen1]
      simp only [List.sum_cons, List.length_cons]
      push_cast
      ring_nf
  · refine ⟨List.replicate 10 0 ++ [1], by simp, ?_⟩
    have hval : runAvg (List.replicate 10 0 ++ [1]) = 1 / 10 := by
      simp [runAvg, runAvgAux, List.replicate]
    rw [hval]
    simp only [List.sum_append, List.length_append, List.sum_replicate,
      List.length_replicate, List.sum_cons, List.sum_nil, List.length_cons,
      List.length_nil, smul_zero, zero_add, add_zero]
    norm_num

/-- Witness for C7: the sequence `[3, 5]` of length ≤ 10 reproduces the
cumulative mean. -/
theorem c7_witness :
    (([3, 5] : List ℚ).length ≤ 10) ∧
    runAvg [3, 5] = ([3, 5] : List ℚ).sum / ((([3, 5] : List ℚ).length : ℕ) : ℚ) :=
  ⟨by norm_num, c7_bounded_average.1 [3, 5] (by norm_num)⟩

/-- The shared decode cursor of `get_ssimu2` (src/ssimulacra2.rs:439-441)
together with the workers' loop status and the frame indices claimed so far:
`next` is the cursor, `srcLeft` / `dstLeft` the frames remaining in the
reference and distorted decoders, `stopped` marks workers that have left
their loop, and `emitted` lists the indices claimed in claim order (each
claim becomes exactly one `FrameScore`; the score value itself is computed
by the opaque external metric after the lock is released). -/
structure PoolState where
  next : ℕ
  srcLeft : ℕ
  dstLeft : ℕ
  stopped : List Bool
  emitted : List ℕ

/-- One `calc_score` call (src/ssimulacra2.rs:208-249) by worker `wid` with
`inc = 1`: holding the cursor lock, the worker reads one frame from each
decoder (each is consumed when present); if both frames are present it
records the current index and advances the cursor, otherwise it returns
`None` and the worker breaks out of its loop (src/ssimulacra2.rs:478-482).
A stopped worker performs no further steps.  The lock makes the whole read
an atomic step, which is how the mutex-guarded critical section is
modelled. -/
def poolStep (st : PoolState) (wid : ℕ) : PoolState :=
  if st.stopped.getD wid false then st
  else if 0 < st.srcLeft ∧ 0 < st.dstLeft then
    { st with next := st.next + 1, srcLeft := st.srcLeft - 1,
              dstLeft := st.dstLeft - 1, emitted := st.emitted ++ [st.next] }
  else
    { st with srcLeft := st.srcLeft - 1, dstLeft := st.dstLeft - 1,
              stopped := st.stopped.set wid true }

/-- A scoring run under an arbitrary interleaving `sched` of the workers'
lock acquisitions. -/
def runPool (st : PoolState) (sched : List ℕ) : PoolState :=
  sched.foldl poolStep st

/-- Initial state for an identical pair of `n`-frame decoders and `w`
workers (src/ssimulacra2.rs:440-442: cursor 0, no results, no worker
stopped). -/
def poolInit (n w : ℕ) : PoolState :=
  ⟨0, n, n, List.replicate w false, []⟩

/-- src/ssimulacra2.rs:400: the scorer pool's worker-thread count is
`available_parallelism / 2`, integer division with no lower bound. -/
def pool_thread_count (parallelism : ℕ) : ℕ := parallelism / 2

/-- Invariant of a run over an identical `n`-frame decoder pair: the two
decoders stay in lockstep with the cursor, the emitted indices are exactly
`0, …, next - 1` in order, and once any worker has stopped the streams were
already exhausted. -/
def PoolInv (n : ℕ) (st : PoolState) : Prop :=
  st.srcLeft = n - st.next ∧ st.dstLeft = n - st.next ∧ st.next ≤ n ∧
  st.emitted = List.range st.next ∧ (st.stopped.any id = true → st.next = n)

theorem poolStep_inv {n : ℕ} {st : PoolState} (wid : ℕ) (h : PoolInv n st) :
    PoolInv n (poolStep st wid) := by
  obtain ⟨hsrc, hdst, hle, hemit, hstop⟩ := h
  unfold poolStep
  split_ifs with hstopped hread
  · exact ⟨hsrc, hdst, hle, hemit, hstop⟩
  · have hlt : st.next < n := by omega
    refine ⟨by simp; omega, by simp; omega, by simp; omega, ?_, ?_⟩
    · simp [hemit, List.range_succ]
    · intro hany
      exact absurd (hstop hany) (by omega)
  · have hn : st.next = n := by omega
    refine ⟨by simp; omega, by simp; omega, by simpa using hle, by simpa using hemit, ?_⟩
    intro _
    simpa using hn

theorem runPool_inv {n : ℕ} {st : PoolState} (sched : List ℕ)
    (h : PoolInv n st) : PoolInv n (runPool st sched) := by
  induction sched generalizing st with
  | nil => exact h
  | cons wid rest ih => exact ih (poolStep_inv wid h)

theorem poolStep_stopped_length (st : PoolState) (wid : ℕ) :
    (poolStep st wid).stopped.length = st.stopped.length := by
  unfold poolStep
  split_ifs <;> simp

theorem runPool_stopped_length (st : PoolState) (sched : List ℕ) :
    (runPool st sched).stopped.length = st.stopped.length := by
  induction sched generalizing st with
  | nil => rfl
  | cons wid rest ih =>
    simpa [runPool] using (ih (poolStep st wid)).trans (poolStep_stopped_length st wid)

theorem all_id_any_id {l : List Bool} (hne : l ≠ []) (hall : l.all id = true) :
    l.any id = true := by
  cases l with
  | nil => exact absurd rfl hne
  | cons b rest =>
    simp only [List.all_cons, Bool.and_eq_true, id] at hall
    simp [List.any_cons, hall.1]

/-- C9: over an identical pair of `n`-frame decoders with stride 1, for
every worker count `w ≥ 1` and every interleaving of the workers' atomic
cursor claims after which all workers have stopped, the run has claimed
exactly the indices `0, …, n-1` in order — `n` results, no duplicates, no
gaps — independent of the worker count and the interleaving. -/
theorem c9_pool_exactness (n w : ℕ) (sched : List ℕ) (hw : 1 ≤ w)
    (hstop : (runPool (poolInit n w) sched).stopped.all id = true) :
    (runPool (poolInit n w) sched).emitted = List.range n ∧
    (runPool (poolInit n w) sched).emitted.length = n ∧
    (runPool (poolInit n w) sched).emitted.Nodup ∧
    (∀ i, i ∈ (runPool (poolInit n w) sched).emitted ↔ i < n) := by
  have hinv : PoolInv n (runPool (poolInit n w) sched) := by
    refine runPool_inv sched ?_
    refine ⟨by simp [poolInit], by simp [poolInit], by simp [poolInit],
      by simp [poolInit], ?_⟩
    intro hany
    simp [poolInit, List.any_eq_true] at hany
  have hlen : (runPool (poolInit n w) sched).stopped ≠ [] := by
    intro hnil
    have hl := runPool_stopped_length (poolInit n w) sched
    rw [hnil] at hl
    simp [poolInit] at hl
    omega
  have hany := all_id_any_id hlen hstop
  obtain ⟨_, _, _, hemit, hstopn⟩ := hinv
  have hn := hstopn hany
  rw [hemit, hn]
  exact ⟨rfl, by simp, List.nodup_range _, fun i => by simp⟩

/-- Witness for C9: three workers against an identical 12-frame pair,
scheduled round-robin and then once more each so that every worker observes
the end of stream and stops; the emitted indices are exactly `0, …, 11`. -/
theorem c9_witness :
    1 ≤ 3 ∧
    ((runPool (poolInit 12 3)
        ((List.range 15).map (fun i => i % 3))).stopped.all id = true) ∧
    (runPool (poolInit 12 3)
        ((List.range 15).map (fun i => i % 3))).emitted = List.range 12 :=
  ⟨by norm_num, by decide,
   (c9_pool_exactness 12 3 ((List.range 15).map (fun i => i % 3))
     (by norm_num) (by decide)).1⟩

/-- C8: contrary to the claim, `get_ssimu2` spawns `parallelism / 2` worker
threads with no lower bound of one: on a single-core host it spawns zero
workers (not `max(1, 1/2) = 1`), and the scoring run then collects no
results at all — with zero workers no cursor step ever happens and the
result channel closes with nothing sent (src/ssimulacra2.rs:442-486,
506-515). -/
theorem c8_thread_count_bug :
    pool_thread_count 1 = 0 ∧
    pool_thread_count 1 ≠ max 1 (1 / 2) ∧
    pool_thread_count 2 = 1 ∧
    (runPool (poolInit 500 (pool_thread_count 1)) []).emitted = [] :=
  ⟨rfl, by decide, rfl, rfl⟩

/-- `ZoneOverrides` (src/main.rs:53-61): the per-scene parameter block.  Its
`video_params` list is assembled from the solved quantizer and the caller's
fixed settings (src/main.rs:1010-1049); the strings are carried opaquely. -/
structure ZoneOverridesRec where
  encoder : String
  passes : ℕ
  video_params : List String
  photon_noise : Option ℕ
  extra_split_sec : ℕ
  min_scene_len : ℕ

/-- `Scene` (src/main.rs:35-42), restricted to the fields the Override
Emitter touches. -/
structure SceneRec where
  start_frame : ℕ
  end_frame : ℕ
  final_quantizer : Option ℚ
  zone_overrides : Option ZoneOverridesRec

/-- The inner loop of `zone_overrides` (src/main.rs:1006-1060): scan the
pristine scene list, `continue` past a scene only when its start frame AND
its end frame both differ from the solved scene's, and otherwise attach the
override block to it and `break`. -/
def attach_first (s : SceneRec) (ov : ZoneOverridesRec) :
    List SceneRec → List SceneRec
  | [] => []
  | o :: rest =>
    if o.start_frame ≠ s.start_frame ∧ o.end_frame ≠ s.end_frame then
      o :: attach_first s ov rest
    else
      { o with zone_overrides := some ov } :: rest

/-- The outer loop of `zone_overrides` (src/main.rs:999-1061): for each
solved scene, attach its parameter block (built by `mkOv` from the scene's
`final_quantizer` and the fixed settings) into the scene list read from the
pristine scenes file; the result is then written to the separate output
path. -/
def emit_overrides (solved : List SceneRec) (mkOv : SceneRec → ZoneOverridesRec)
    (pristine : List SceneRec) : List SceneRec :=
  solved.foldl (fun acc s => attach_first s (mkOv s) acc) pristine

/-- `temp_path` (src/main.rs:900-904) renders `file_stem ++ ext` inside the
parent directory; the caller derives the pristine scenes file with extension
`"_scenes.json"` and the override output with `"_override.json"`
(src/main.rs:1306-1308). -/
def temp_name (stem ext : String) : String := stem ++ ext

theorem attach_first_bounds (s : SceneRec) (ov : ZoneOverridesRec) :
    ∀ l : List SceneRec,
      (attach_first s ov l).map (fun o => (o.start_frame, o.end_frame)) =
        l.map (fun o => (o.start_frame, o.end_frame)) := by
  intro l
  induction l with
  | nil => rfl
  | cons o rest ih =>
    by_cases h : o.start_frame ≠ s.start_frame ∧ o.end_frame ≠ s.end_frame
    · simp [attach_first, if_pos h, ih]
    · simp [attach_first, if_neg h]

/-- C3, counterexample: the skip condition at src/main.rs:1007 is
`start_frame != … && end_frame != …`, so a pristine scene whose start frame
matches but whose end frame differs (here `[0, 50]` against the solved scene
`[0, 99]`) still receives the override block, refuting "start_frame AND
end_frame are both identical". -/
theorem c3_counterexample :
    emit_overrides [⟨0, 99, some 30, none⟩]
        (fun _ => ⟨"svt_av1", 1, [], none, 10, 24⟩)
        [⟨0, 50, none, none⟩] =
      [⟨0, 50, none, some ⟨"svt_av1", 1, [], none, 10, 24⟩⟩] ∧
    (50 : ℕ) ≠ 99 := by
  constructor
  · simp [emit_overrides, attach_first]
  · decide

/-- C3, amended: the emitter attaches the override block to the *first*
pristine scene whose start frame OR end frame matches the solved scene's
(scenes are skipped only when both differ, and nothing is attached when
every scene differs in both); every scene's `start_frame`/`end_frame`
survive unchanged, and the output goes to the `"_override.json"` path, which
is distinct from the pristine `"_scenes.json"` path, which is never written. -/
theorem c3_override_matching :
    (∀ (solved : List SceneRec) (mkOv : SceneRec → ZoneOverridesRec)
        (pristine : List SceneRec),
      (emit_overrides solved mkOv pristine).map
          (fun o => (o.start_frame, o.end_frame)) =
        pristine.map (fun o => (o.start_frame, o.end_frame))) ∧
    (∀ (s : SceneRec) (ov : ZoneOverridesRec) (pre : List SceneRec)
        (o : SceneRec) (post : List SceneRec),
      (∀ p ∈ pre, p.start_frame ≠ s.start_frame ∧ p.end_frame ≠ s.end_frame) →
      (o.start_frame = s.start_frame ∨ o.end_frame = s.end_frame) →
      attach_first s ov (pre ++ o :: post) =
        pre ++ { o with zone_overrides := some ov } :: post) ∧
    (∀ (s : SceneRec) (ov : ZoneOverridesRec) (l : List SceneRec),
      (∀ p ∈ l, p.start_frame ≠ s.start_frame ∧ p.end_frame ≠ s.end_frame) →
      attach_first s ov l = l) ∧
    (∀ stem : String,
      temp_name stem "_scenes.json" ≠ temp_name stem "_override.json") := by
  refine ⟨?_, ?_, ?_, ?_⟩
  · intro solved mkOv pristine
    induction solved generalizing pristine with
    | nil => rfl
    | cons s rest ih =>
      simpa [emit_overrides, List.foldl_cons] using
        (ih (attach_first s (mkOv s) pristine)).trans
          (attach_first_bounds s (mkOv s) pristine)
  · intro s ov pre o post hpre ho
    induction pre with
    | nil =>
      have : ¬ (o.start_frame ≠ s.start_frame ∧ o.end_frame ≠ s.end_frame) := by
        tauto
      simp [attach_first, if_neg this]
    | cons p rest ih =>
      have hp := hpre p (by simp)
      simp only [List.cons_append, attach_first, if_pos hp]
      exact congrArg (fun t => p :: t) (ih (fun x hx => hpre x (by simp [hx])))
  · intro s ov l hall
    induction l with
    | nil => rfl
    | cons p rest ih =>
      have hp := hall p (by simp)
      simp only [attach_first, if_pos hp]
      rw [ih (fun x hx => hall x (by simp [hx]))]
  · intro stem h
    have hlen := congrArg String.length h
    simp only [temp_name, String.length_append] at hlen
    have h1 : ("_scenes.json" : String).length = 12 := by decide
    have h2 : ("_override.json" : String).length = 14 := by decide
    rw [h1, h2] at hlen
    omega

/-- Witness for C3 (amended): with pristine scenes `[0, 99]` and
`[100, 199]` and a solved scene `[100, 199]`, the emitter skips the first
scene and attaches the block to the exact match; boundaries are unchanged. -/
theorem c3_witness :
    (∀ p ∈ [(⟨0, 99, none, none⟩ : SceneRec)],
      p.start_frame ≠ 100 ∧ p.end_frame ≠ 199) ∧
    ((100 : ℕ) = 100 ∨ (199 : ℕ) = 199) ∧
    attach_first ⟨100, 199, some 30, none⟩ ⟨"svt_av1", 1, [], none, 10, 24⟩
        ([⟨0, 99, none, none⟩] ++ ⟨100, 199, none, none⟩ :: []) =
      [(⟨0, 99, none, none⟩ : SceneRec)] ++
        ⟨100, 199, none, some ⟨"svt_av1", 1, [], none, 10, 24⟩⟩ :: [] :=
  ⟨by decide, by decide,
   c3_override_matching.2.1 ⟨100, 199, some 30, none⟩
     ⟨"svt_av1", 1, [], none, 10, 24⟩ [⟨0, 99, none, none⟩]
     ⟨100, 199, none, none⟩ [] (by decide) (by decide)⟩

end Grav1an
